import Mathlib

/-!
Verification of the `shell` repository (shell.c / shell.h / main.c): a shallow
embedding in Lean 4 of the read-tokenize-execute loop, together with theorems
settling the specified properties.

Modelling conventions
  - A C string (NUL-terminated `char*`) is a `List Char` holding the characters
    before the terminator; the terminator itself is implicit (the end of the list).
  - The standard input stream is a `List Char`; the end of the list is end-of-stream
    (EOF).  `getchar` yields the head of the remaining stream, or EOF when empty.
  - A `char**` argument vector is a `List (List Char)`; the NULL sentinel slot is
    implicit (the end of the list).  `arguments[0]` of a sentinel-only vector
    corresponds to `List.head? = none`.
  - OS effects of `shell_execute` (fork / execvp / waitpid) are resolved by an
    explicit `ForkSpec` oracle describing which execution context we observe and
    what the OS returns there; the function result is an `ExecOutcome` record of
    the observable behaviour in that context (return value, whether fork was
    called, whether a child exists, number of waitpid calls, diagnostics).
-/

/-- `SHELL_INPUT_BUFFER_SIZE` from shell.h. -/
def SHELL_INPUT_BUFFER_SIZE : Nat := 1024

/-- `SHELL_INPUT_BUFFER_GROWTH` from shell.h. -/
def SHELL_INPUT_BUFFER_GROWTH : Nat := 2

/-- `SHELL_EXECUTE_BACKGROUND_TOKEN` from shell.h. -/
def SHELL_EXECUTE_BACKGROUND_TOKEN : Char := '&'

/-- The delimiter set `SHELL_INPUT_TOKEN_CHARS = " \t\r\n\a"` from shell.h
(`'\x07'` is the alert control character `\a`). -/
def isDelim (c : Char) : Bool :=
  c = ' ' || c = '\t' || c = '\r' || c = '\n' || c = '\x07'

/-- Embedding of `shell_is_background` (shell.c lines 49-60): compute
`length = strlen(string)`; if `string[length - 1]` is the background token,
overwrite it with the terminator (in the list model: drop the last character)
and return 1, else return 0 with the string unchanged.  The C code has
undefined behaviour on the empty string (it reads `string[-1]`); the `none`
branch is never relied on by any theorem (all carry a nonemptiness
hypothesis, matching the repl's guard). -/
def shell_is_background (s : List Char) : Bool × List Char :=
  match s.getLast? with
  | some c =>
      if c = SHELL_EXECUTE_BACKGROUND_TOKEN then (true, s.dropLast) else (false, s)
  | none => (false, s)

/-- The characters of the first line of a stream: everything before the first
`'\n'` (or the whole stream if it has no newline before EOF).  Used to state
what `shell_read_input` returns. -/
def firstLine (stdin : List Char) : List Char :=
  stdin.takeWhile (fun c => !(c = '\n'))

/-- Embedding of the loop body of `shell_read_input` (shell.c lines 84-110).
State: remaining stream, buffer contents so far (`buf`), `buffer_pos` (`pos`),
and `current_buffer_size` (`cap`).  Each iteration reads one character; EOF or
`'\n'` terminates (writing the terminator, implicit here); otherwise the
character is appended and `buffer_pos` incremented; when `buffer_pos` reaches
the capacity, the capacity is multiplied by `SHELL_INPUT_BUFFER_GROWTH` and the
buffer reallocated (realloc preserves the written bytes, which the list `buf`
models directly).  Returns the accumulated string and the final capacity. -/
def shell_read_loop : List Char → List Char → Nat → Nat → List Char × Nat
  | [], buf, _, cap => (buf, cap)
  | c :: rest, buf, pos, cap =>
      if c = '\n' then (buf, cap)
      else
        if pos + 1 ≥ cap then
          shell_read_loop rest (buf ++ [c]) (pos + 1) (cap * SHELL_INPUT_BUFFER_GROWTH)
        else
          shell_read_loop rest (buf ++ [c]) (pos + 1) cap

/-- Embedding of `shell_read_input` (shell.c lines 73-113): start from an empty
buffer, position 0 and capacity `SHELL_INPUT_BUFFER_SIZE`, and run the read
loop on the stream.  Successful (re)allocation is assumed; allocation failure
aborts the process in the C code and is outside this model. -/
def shell_read_input (stdin : List Char) : List Char × Nat :=
  shell_read_loop stdin [] 0 SHELL_INPUT_BUFFER_SIZE

/-- Embedding of the token VALUES produced by `shell_tokenize_input`
(shell.c lines 120-158), whose splitting is `strtok` with delimiter set
`SHELL_INPUT_TOKEN_CHARS`: scan left to right, accumulating the current token
(`cur`, kept reversed); a delimiter finishes the current token (if any);
leading and repeated delimiters produce no empty token; the NULL sentinel
terminating the token array is the implicit end of the result list.
This value model is faithful only while every store stays inside the token
buffer, i.e. for lines of fewer than `SHELL_INPUT_BUFFER_SIZE` tokens: the
capacity bookkeeping of shell.c lines 142-147 reallocates the buffer to
`current_buffer_size` BYTES instead of `char*` slots (the `sizeof(char*)`
factor is missing), which corrupts the array at `SHELL_INPUT_BUFFER_SIZE` or
more tokens.  That bookkeeping is modelled separately by `tokenStoreState`
below. -/
def tokenizeAux : List Char → List Char → List (List Char)
  | [], cur => if cur = [] then [] else [cur.reverse]
  | c :: rest, cur =>
      if isDelim c then
        if cur = [] then tokenizeAux rest []
        else cur.reverse :: tokenizeAux rest []
      else tokenizeAux rest (c :: cur)

/-- `shell_tokenize_input` on a whole line: tokenize starting with no current
token. -/
def shell_tokenize_input (s : List Char) : List (List Char) :=
  tokenizeAux s []

/-- Size in bytes of a `char*` pointer slot on the 64-bit platforms this
shell targets: the factor the token-buffer `realloc` call at shell.c line 145
is missing.  (Any pointer size of at least 2 bytes overflows in the same
way.) -/
def PTR_SIZE : Nat := 8

/-- Allocation bookkeeping of the token buffer in `shell_tokenize_input`
(shell.c lines 122-148), translated from the source: `current_buffer_size`
starts at `SHELL_INPUT_BUFFER_SIZE`, and the initial allocation is
`calloc(current_buffer_size, sizeof(char) * current_buffer_size)`, i.e.
`SHELL_INPUT_BUFFER_SIZE * (1 * SHELL_INPUT_BUFFER_SIZE)` BYTES.  Token `i`
is stored at index `i`, `token_buffer_pos` becomes `i + 1`, and when it
reaches `current_buffer_size` the latter is multiplied by
`SHELL_INPUT_BUFFER_GROWTH` and the buffer is reallocated to
`realloc(token_buffer, current_buffer_size)` — `current_buffer_size` BYTES,
the `sizeof(char*)` factor missing.  `tokenStoreState n` is the pair
`(current_buffer_size, allocated bytes)` after `n` tokens have been stored
and their growth checks have run; a store at slot index `j` into an
allocation of `b` bytes is in bounds exactly when `PTR_SIZE * (j + 1) ≤ b`. -/
def tokenStoreState : Nat → Nat × Nat
  | 0 => (SHELL_INPUT_BUFFER_SIZE,
      SHELL_INPUT_BUFFER_SIZE * (1 * SHELL_INPUT_BUFFER_SIZE))
  | n + 1 =>
      if n + 1 ≥ (tokenStoreState n).1 then
        ((tokenStoreState n).1 * SHELL_INPUT_BUFFER_GROWTH,
          (tokenStoreState n).1 * SHELL_INPUT_BUFFER_GROWTH)
      else tokenStoreState n

/-- A `waitpid` status, as tested by the C macros: `WIFEXITED` (normal
termination with an exit code), `WIFSIGNALED` (termination by a signal), or —
reported because of `WUNTRACED` — `WIFSTOPPED` (stopped, not terminated). -/
inductive WaitStatus : Type
  | exited : Nat → WaitStatus
  | signaled : Nat → WaitStatus
  | stopped : Nat → WaitStatus
  deriving Repr, DecidableEq

/-- `WIFEXITED(status) || WIFSIGNALED(status)`: the loop
`do { waitpid(...); } while (!WIFEXITED(status) && !WIFSIGNALED(status));`
stops exactly on such a status. -/
def isTerminal : WaitStatus → Bool
  | .exited _ => true
  | .signaled _ => true
  | .stopped _ => false

/-- Number of `waitpid` calls the wait loop performs when the OS delivers the
given sequence of statuses for the child: the do-while consumes statuses until
the first terminal one, inclusive.  (The empty list would mean `waitpid`
blocks forever; theorems assume a terminal status is eventually delivered.) -/
def waitCalls : List WaitStatus → Nat
  | [] => 0
  | s :: rest => if isTerminal s then 1 else 1 + waitCalls rest

/-- Oracle resolving the OS effects of one `shell_execute` call:
`fail` — `fork()` returned a negative value;
`child` — we observe the child context (`fork()` returned 0), with the flag
telling whether `execvp` succeeds (replacing the image) or fails (returns -1);
`parent` — we observe the parent context (`fork()` returned the child pid),
with the sequence of statuses `waitpid` would deliver. -/
inductive ForkSpec : Type
  | fail : ForkSpec
  | child : Bool → ForkSpec
  | parent : List WaitStatus → ForkSpec

/-- Observable outcome of one `shell_execute` call in the observed context.
Fields in order:
`ret` — `some r` if the call returns `r` to its caller in this context;
`none` if control never comes back (the image was replaced by `execvp`);
`forkCalled` — whether `fork()` was called;
`childCreated` — whether a child process was created;
`waits` — how many `waitpid` calls were made;
`errReported` — whether a diagnostic was written via `perror`. -/
structure ExecOutcome : Type where
  ret : Option Nat
  forkCalled : Bool
  childCreated : Bool
  waits : Nat
  errReported : Bool
  deriving Repr, DecidableEq

/-- Embedding of `shell_execute` (shell.c lines 165-207).  Dispatch: if
`arguments[0]` equals `"exit"` or `"quit"` (exact `strcmp`), return 1 at once.
Otherwise `fork()`:
on failure, `perror` and fall through to `return 0`;
in the child, `execvp(arguments[0], arguments)`; on its failure (`-1`),
`perror` — and, the code containing no `exit()`, fall through to `return 0`
in the child as well;
in the parent, if `background` return 0 immediately, else run the
`waitpid`/`WUNTRACED` do-while until a terminal status, then return 0.
`arguments[0]` is `headI` (the C code reads index 0 unconditionally; a
sentinel-only vector gives `strcmp(NULL,...)`, undefined behaviour — all
theorems about this function assume a nonempty vector). -/
def shell_execute (arguments : List (List Char)) (background : Bool)
    (os : ForkSpec) : ExecOutcome :=
  if arguments.headI = "exit".toList then
    ⟨some 1, false, false, 0, false⟩
  else if arguments.headI = "quit".toList then
    ⟨some 1, false, false, 0, false⟩
  else
    match os with
    | .fail => ⟨some 0, true, false, 0, true⟩
    | .child execvpOk =>
        if execvpOk then
          ⟨none, true, true, 0, false⟩
        else
          ⟨some 0, true, true, 0, true⟩
    | .parent statuses =>
        if background then
          ⟨some 0, true, true, 0, false⟩
        else
          ⟨some 0, true, true, waitCalls statuses, false⟩

/-- What one iteration of `shell_repl` (shell.c lines 219-244) does with the
line returned by `shell_read_input`: either the empty-line guard
(`input[0] == '\0'`, i.e. the list is empty) skips the iteration, or
`shell_is_background` runs first (mutating the line), then
`shell_tokenize_input` on the mutated line, and `shell_execute` is invoked
with the resulting argument vector and background flag. -/
inductive ReplStep : Type
  | skipped : ReplStep
  | executed : List (List Char) → Bool → ReplStep
  deriving Repr, DecidableEq

/-- One iteration of the `shell_repl` loop body on the line read. -/
def shell_repl_step (input : List Char) : ReplStep :=
  match input with
  | [] => ReplStep.skipped
  | _ :: _ =>
      ReplStep.executed
        (shell_tokenize_input (shell_is_background input).2)
        (shell_is_background input).1

theorem waitCalls_eq (l : List WaitStatus) (h : ∃ s ∈ l, isTerminal s = true) :
    waitCalls l = (l.takeWhile (fun s => !isTerminal s)).length + 1 := by
  induction l with
  | nil => simp at h
  | cons s rest ih =>
      cases hs : isTerminal s with
      | true => simp [waitCalls, List.takeWhile_cons, hs]
      | false =>
          obtain ⟨t, ht, htt⟩ := h
          rcases List.mem_cons.mp ht with rfl | htr
          · rw [hs] at htt; exact absurd htt (by simp)
          · have hrec := ih ⟨t, htr, htt⟩
            simp [waitCalls, List.takeWhile_cons, hs, hrec]
            omega

/-- Claim C3: for every non-builtin command with a successful fork,
`shell_execute` in the parent returns the continue signal 0; with
`background` true it performs no wait at all; with `background` false it
waits repeatedly on the child, one `waitpid` call per delivered status, until
the first terminal (exited-or-signaled) status — stopped statuses do not end
the wait — and the child's exit status is discarded (the return value is 0
whatever the statuses, exit codes included). -/
theorem claim_C3 (arguments : List (List Char)) (background : Bool)
    (statuses : List WaitStatus)
    (h0 : arguments ≠ [])
    (h1 : arguments.headI ≠ "exit".toList)
    (h2 : arguments.headI ≠ "quit".toList)
    (hterm : ∃ s ∈ statuses, isTerminal s = true) :
    (shell_execute arguments background (ForkSpec.parent statuses)).ret = some 0 ∧
    (background = true →
      (shell_execute arguments background (ForkSpec.parent statuses)).waits = 0) ∧
    (background = false →
      (shell_execute arguments background (ForkSpec.parent statuses)).waits
        = (statuses.takeWhile (fun s => !isTerminal s)).length + 1) := by
  simp only [shell_execute, if_neg h1, if_neg h2]
  cases background <;> simp [waitCalls_eq statuses hterm]

theorem claim_C3_witness :
    (["ls".toList] ≠ ([] : List (List Char))
      ∧ ["ls".toList].headI ≠ "exit".toList
      ∧ ["ls".toList].headI ≠ "quit".toList
      ∧ ∃ s ∈ [WaitStatus.stopped 19, WaitStatus.exited 7], isTerminal s = true) ∧
    ((shell_execute ["ls".toList] false
        (ForkSpec.parent [WaitStatus.stopped 19, WaitStatus.exited 7])).ret = some 0 ∧
      (false = true →
        (shell_execute ["ls".toList] false
          (ForkSpec.parent [WaitStatus.stopped 19, WaitStatus.exited 7])).waits = 0) ∧
      (false = false →
        (shell_execute ["ls".toList] false
          (ForkSpec.parent [WaitStatus.stopped 19, WaitStatus.exited 7])).waits
          = ([WaitStatus.stopped 19, WaitStatus.exited 7].takeWhile
              (fun s => !isTerminal s)).length + 1)) :=
  ⟨⟨by decide, by decide, by decide, by decide⟩,
    claim_C3 ["ls".toList] false [WaitStatus.stopped 19, WaitStatus.exited 7]
      (by decide) (by decide) (by decide) (by decide)⟩

/-- Claim C4: a first token equal exactly to "exit" or exactly to "quit" makes
`shell_execute` return the exit signal 1 without calling fork, without creating
a child, without waiting and without a diagnostic; any other first token is not
recognised as a builtin — execution proceeds to the fork call in every OS
scenario. -/
theorem claim_C4 (arguments : List (List Char)) (background : Bool)
    (os : ForkSpec) (h0 : arguments ≠ []) :
    ((arguments.headI = "exit".toList ∨ arguments.headI = "quit".toList) →
      shell_execute arguments background os = ⟨some 1, false, false, 0, false⟩) ∧
    ((arguments.headI ≠ "exit".toList ∧ arguments.headI ≠ "quit".toList) →
      (shell_execute arguments background os).forkCalled = true) := by
  constructor
  · rintro (he | hq)
    · simp [shell_execute, he]
    · simp [shell_execute, hq]
  · rintro ⟨h1, h2⟩
    simp only [shell_execute, if_neg h1, if_neg h2]
    cases os with
    | fail => rfl
    | child ok => cases ok <;> rfl
    | parent statuses => cases background <;> rfl

theorem claim_C4_witness :
    (["exit".toList] ≠ ([] : List (List Char))) ∧
    shell_execute ["exit".toList] false (ForkSpec.parent [])
      = ⟨some 1, false, false, 0, false⟩ :=
  ⟨by decide,
    (claim_C4 ["exit".toList] false (ForkSpec.parent []) (by decide)).1
      (Or.inl (by decide))⟩

/-- Claim C9: for every non-builtin command, when `fork` fails `shell_execute`
reports the failure (the `perror` diagnostic), returns the continue signal 0,
creates no child and performs no wait. -/
theorem claim_C9 (arguments : List (List Char)) (background : Bool)
    (h0 : arguments ≠ [])
    (h1 : arguments.headI ≠ "exit".toList)
    (h2 : arguments.headI ≠ "quit".toList) :
    shell_execute arguments background ForkSpec.fail
      = ⟨some 0, true, false, 0, true⟩ := by
  simp only [shell_execute, if_neg h1, if_neg h2]

theorem claim_C9_witness :
    (["ls".toList] ≠ ([] : List (List Char))
      ∧ ["ls".toList].headI ≠ "exit".toList
      ∧ ["ls".toList].headI ≠ "quit".toList) ∧
    shell_execute ["ls".toList] true ForkSpec.fail
      = ⟨some 0, true, false, 0, true⟩ :=
  ⟨⟨by decide, by decide, by decide⟩,
    claim_C9 ["ls".toList] true (by decide) (by decide) (by decide)⟩

/-- Claim C2 (evaluation at the failing input): in the child context, when
`execvp` fails for a non-builtin command, the failure is indeed reported
(`errReported = true`), but the child does NOT terminate: `shell_execute`
returns 0 to its caller inside the child (`ret = some 0`, the code contains no
`exit()` after the `perror`), so the duplicated process falls through into
`shell_repl`'s remaining loop logic and keeps reading commands — contradicting
the claim that it terminates abnormally. -/
theorem claim_C2 :
    (shell_execute ["nosuchcmd".toList] false (ForkSpec.child false)).errReported
        = true ∧
    (shell_execute ["nosuchcmd".toList] false (ForkSpec.child false)).ret
        = some 0 := by
  decide

/-- Claim C1 (evaluation at the failing input): the repl's guard only tests
`input[0] == '\0'`, so it skips the delimiter-only (empty) line, but it does
NOT skip the whitespace-only line consisting of a single space: that line
reaches `shell_execute` with a sentinel-only token sequence (`[]`, whose
`arguments[0]` is the NULL sentinel) — contradicting the claim that every
whitespace-only line is skipped with no crash (in the C code the subsequent
`strcmp(arguments[0], "exit")` dereferences NULL). -/
theorem claim_C1 :
    shell_repl_step [] = ReplStep.skipped ∧
    shell_repl_step [' '] = ReplStep.executed [] false := by
  decide

/-- Claim C10: the line consisting of the single character `'&'` is not
skipped by the empty-line guard; `shell_is_background` strips the marker
leaving the empty line and returns true; tokenization of the stripped line
yields the sentinel-only sequence, so `shell_execute` is invoked with its
first token equal to the sentinel (`[]` as argument vector).  Moreover
`shell_is_background` strips at most one character from any line, and a line
ending in `"&&"` keeps one `'&'`, which becomes part of a token: `"ls &&"`
executes with token sequence `["ls", "&"]` and background true. -/
theorem claim_C10 :
    shell_repl_step ['&'] = ReplStep.executed [] true ∧
    (∀ s : List Char, s.length ≤ ((shell_is_background s).2).length + 1) ∧
    shell_repl_step "ls &&".toList
      = ReplStep.executed ["ls".toList, "&".toList] true := by
  refine ⟨by decide, ?_, by decide⟩
  intro s
  unfold shell_is_background
  cases hl : s.getLast? with
  | none => simp
  | some c =>
      by_cases hc : c = SHELL_EXECUTE_BACKGROUND_TOKEN <;>
        simp [hc, List.length_dropLast]
      omega

/-- Characterization of `shell_is_background`: it strips the last character
and reports background exactly when the last character is the marker. -/
theorem shell_is_background_eq (s : List Char) :
    shell_is_background s =
      if s.getLast? = some '&' then (true, s.dropLast) else (false, s) := by
  unfold shell_is_background SHELL_EXECUTE_BACKGROUND_TOKEN
  cases s.getLast? with
  | none => simp
  | some c => by_cases hc : c = '&' <;> simp [hc]

/-- Claim C5: for every line of length at least 1, `shell_is_background`
returns true and shortens the line by exactly one character (the trailing
marker overwritten with the terminator) if and only if the last character is
`'&'`; otherwise it returns false and leaves the line unchanged; in
particular `"ls -la &"` becomes `"ls -la "` with result true and `"ls -la"`
is unchanged with result false. -/
theorem claim_C5 (s : List Char) (h : 1 ≤ s.length) :
    ((shell_is_background s = (true, s.dropLast)
        ∧ (shell_is_background s).2.length + 1 = s.length)
      ↔ s.getLast? = some '&') ∧
    (s.getLast? ≠ some '&' → shell_is_background s = (false, s)) ∧
    shell_is_background "ls -la &".toList = (true, "ls -la ".toList) ∧
    shell_is_background "ls -la".toList = (false, "ls -la".toList) := by
  have hbg := shell_is_background_eq s
  refine ⟨⟨?_, ?_⟩, ?_, by decide, by decide⟩
  · rintro ⟨heq, -⟩
    by_cases hl : s.getLast? = some '&'
    · exact hl
    · rw [hbg, if_neg hl] at heq
      simp at heq
  · intro hl
    rw [hbg, if_pos hl]
    refine ⟨rfl, ?_⟩
    simp [List.length_dropLast]
    omega
  · intro hl
    rw [hbg, if_neg hl]

theorem claim_C5_witness :
    1 ≤ ("ls -la &".toList).length ∧
    (((shell_is_background "ls -la &".toList
          = (true, ("ls -la &".toList).dropLast)
        ∧ (shell_is_background "ls -la &".toList).2.length + 1
          = ("ls -la &".toList).length)
      ↔ ("ls -la &".toList).getLast? = some '&') ∧
    (("ls -la &".toList).getLast? ≠ some '&' →
      shell_is_background "ls -la &".toList = (false, "ls -la &".toList)) ∧
    shell_is_background "ls -la &".toList = (true, "ls -la ".toList) ∧
    shell_is_background "ls -la".toList = (false, "ls -la".toList)) :=
  ⟨by decide, claim_C5 "ls -la &".toList (by decide)⟩

theorem tokenizeAux_flatten (s cur : List Char) :
    (tokenizeAux s cur).flatten = cur.reverse ++ s.filter (fun c => !isDelim c) := by
  induction s generalizing cur with
  | nil =>
      by_cases hcur : cur = [] <;> simp [tokenizeAux, hcur]
  | cons c rest ih =>
      cases hc : isDelim c with
      | true =>
          by_cases hcur : cur = [] <;>
            simp [tokenizeAux, hc, hcur, ih, List.filter_cons]
      | false =>
          simp [tokenizeAux, hc, ih, List.filter_cons]

theorem tokenizeAux_tokens (s : List Char) :
    ∀ cur, (∀ c ∈ cur, isDelim c = false) →
      ∀ t ∈ tokenizeAux s cur, t ≠ [] ∧ ∀ c ∈ t, isDelim c = false := by
  induction s with
  | nil =>
      intro cur hcur t ht
      by_cases hc : cur = []
      · simp [tokenizeAux, hc] at ht
      · simp [tokenizeAux, hc] at ht
        subst ht
        refine ⟨by simpa using hc, ?_⟩
        intro x hx
        exact hcur x (List.mem_reverse.mp hx)
  | cons c rest ih =>
      intro cur hcur t ht
      cases hdc : isDelim c with
      | true =>
          by_cases hc : cur = []
          · rw [hc] at ht
            simp [tokenizeAux, hdc] at ht
            exact ih [] (by simp) t ht
          · simp [tokenizeAux, hdc, hc] at ht
            rcases ht with rfl | ht
            · refine ⟨by simpa using hc, ?_⟩
              intro x hx
              exact hcur x (List.mem_reverse.mp hx)
            · exact ih [] (by simp) t ht
      | false =>
          simp [tokenizeAux, hdc] at ht
          refine ih (c :: cur) ?_ t ht
          intro x hx
          rcases List.mem_cons.mp hx with rfl | hx
          · exact hdc
          · exact hcur x hx

theorem tokenizeAux_all_delim (s : List Char) (h : ∀ c ∈ s, isDelim c = true) :
    tokenizeAux s [] = [] := by
  induction s with
  | nil => rfl
  | cons c rest ih =>
      have hc := h c (List.mem_cons_self c rest)
      simp only [tokenizeAux, hc, if_true]
      exact ih fun x hx => h x (List.mem_cons_of_mem c hx)

theorem tokenStoreState_succ (n : Nat) :
    tokenStoreState (n + 1)
      = if n + 1 ≥ (tokenStoreState n).1 then
          ((tokenStoreState n).1 * SHELL_INPUT_BUFFER_GROWTH,
            (tokenStoreState n).1 * SHELL_INPUT_BUFFER_GROWTH)
        else tokenStoreState n := by
  rw [tokenStoreState]

theorem tokenStoreState_eq_init (n : Nat) (h : n ≤ 1023) :
    tokenStoreState n
      = (SHELL_INPUT_BUFFER_SIZE,
          SHELL_INPUT_BUFFER_SIZE * (1 * SHELL_INPUT_BUFFER_SIZE)) := by
  induction n with
  | zero => rfl
  | succ n ih =>
      have hn : n ≤ 1023 := by omega
      have hcap : ¬ (n + 1 ≥ (tokenStoreState n).1) := by
        rw [ih hn]
        simp [SHELL_INPUT_BUFFER_SIZE]
        omega
      rw [tokenStoreState_succ, if_neg hcap, ih hn]

theorem tokenStoreState_at_cap : tokenStoreState 1024 = (2048, 2048) := by
  have hs := tokenStoreState_succ 1023
  rw [tokenStoreState_eq_init 1023 (by omega)] at hs
  norm_num [SHELL_INPUT_BUFFER_SIZE, SHELL_INPUT_BUFFER_GROWTH] at hs
  exact hs

theorem tokenizeAux_replicate (n : Nat) :
    tokenizeAux ((List.replicate n ['a', ' ']).flatten) []
      = List.replicate n ['a'] := by
  induction n with
  | zero => rfl
  | succ n ih =>
      have step : ∀ rest : List Char,
          tokenizeAux ('a' :: ' ' :: rest) [] = ['a'] :: tokenizeAux rest [] := by
        intro rest
        simp [tokenizeAux, isDelim]
      rw [List.replicate_succ, List.flatten_cons]
      show tokenizeAux ('a' :: ' ' :: (List.replicate n ['a', ' ']).flatten) []
          = List.replicate (n + 1) ['a']
      rw [step, ih, List.replicate_succ]

/-- Claim C6 (evaluation at the failing input): the claimed clean split fails
on the source for lines of `SHELL_INPUT_BUFFER_SIZE` or more tokens, because
the token-buffer growth step (shell.c lines 142-147) calls
`realloc(token_buffer, current_buffer_size)` — `current_buffer_size` BYTES,
the `sizeof(char*)` factor missing.  On the line made of 1024 one-letter
tokens: the split yields 1024 tokens (so the growth check fires at
`token_buffer_pos = 1024`); the allocation after that growth is 2048 bytes,
only 256 pointer slots; and the NULL-sentinel store at index 1024 needs
`PTR_SIZE * 1025 = 8200` bytes, so it writes out of bounds — the source does
not return the claimed sentinel-terminated token sequence for every line. -/
theorem claim_C6 :
    shell_tokenize_input ((List.replicate 1024 ['a', ' ']).flatten)
      = List.replicate 1024 ['a'] ∧
    tokenStoreState 1024 = (2048, 2048) ∧
    (tokenStoreState 1024).2 / PTR_SIZE = 256 ∧
    PTR_SIZE * ((List.replicate 1024 (['a'] : List Char)).length + 1)
      > (tokenStoreState 1024).2 := by
  refine ⟨tokenizeAux_replicate 1024, tokenStoreState_at_cap, ?_, ?_⟩
  · rw [tokenStoreState_at_cap]
    decide
  · rw [tokenStoreState_at_cap, List.length_replicate]
    decide

theorem shell_read_loop_line (stdin : List Char) :
    ∀ buf pos cap, (shell_read_loop stdin buf pos cap).1 = buf ++ firstLine stdin := by
  induction stdin with
  | nil => intro buf pos cap; simp [shell_read_loop, firstLine]
  | cons c rest ih =>
      intro buf pos cap
      by_cases hc : c = '\n'
      · simp [shell_read_loop, firstLine, hc]
      · by_cases hcap : pos + 1 ≥ cap <;>
          simp [shell_read_loop, firstLine, hc, hcap, ih, List.takeWhile_cons]

theorem shell_read_loop_cap (stdin : List Char) :
    ∀ buf pos cap, ∃ k, (shell_read_loop stdin buf pos cap).2
      = cap * SHELL_INPUT_BUFFER_GROWTH ^ k := by
  induction stdin with
  | nil => intro buf pos cap; exact ⟨0, by simp [shell_read_loop]⟩
  | cons c rest ih =>
      intro buf pos cap
      by_cases hc : c = '\n'
      · exact ⟨0, by simp [shell_read_loop, hc]⟩
      · by_cases hcap : pos + 1 ≥ cap
        · obtain ⟨k, hk⟩ := ih (buf ++ [c]) (pos + 1) (cap * SHELL_INPUT_BUFFER_GROWTH)
          refine ⟨k + 1, ?_⟩
          simp [shell_read_loop, hc, hcap, hk]
          ring
        · obtain ⟨k, hk⟩ := ih (buf ++ [c]) (pos + 1) cap
          exact ⟨k, by simp [shell_read_loop, hc, hcap, hk]⟩

theorem shell_read_loop_cap_le (stdin buf : List Char) (pos cap : Nat) :
    cap ≤ (shell_read_loop stdin buf pos cap).2 := by
  obtain ⟨k, hk⟩ := shell_read_loop_cap stdin buf pos cap
  rw [hk]
  have h1 : 1 ≤ SHELL_INPUT_BUFFER_GROWTH ^ k := Nat.one_le_pow _ _ (by decide)
  calc cap = cap * 1 := (Nat.mul_one cap).symm
    _ ≤ cap * SHELL_INPUT_BUFFER_GROWTH ^ k := Nat.mul_le_mul_left cap h1

theorem firstLine_cons_newline (rest : List Char) :
    firstLine ('\n' :: rest) = [] := by
  simp [firstLine, List.takeWhile_cons]

theorem firstLine_cons_of_ne (c : Char) (rest : List Char) (hc : ¬ c = '\n') :
    firstLine (c :: rest) = c :: firstLine rest := by
  simp [firstLine, List.takeWhile_cons, hc]

theorem shell_read_loop_growth (stdin : List Char) :
    ∀ buf pos cap, pos < cap → cap ≤ pos + (firstLine stdin).length →
      cap * SHELL_INPUT_BUFFER_GROWTH ≤ (shell_read_loop stdin buf pos cap).2 := by
  induction stdin with
  | nil =>
      intro buf pos cap hlt hle
      simp [firstLine] at hle
      omega
  | cons c rest ih =>
      intro buf pos cap hlt hle
      by_cases hc : c = '\n'
      · subst hc
        rw [firstLine_cons_newline] at hle
        simp at hle
        omega
      · rw [firstLine_cons_of_ne c rest hc] at hle
        simp only [List.length_cons] at hle
        by_cases hcap : pos + 1 ≥ cap
        · have hrest :=
            shell_read_loop_cap_le rest (buf ++ [c]) (pos + 1)
              (cap * SHELL_INPUT_BUFFER_GROWTH)
          simpa [shell_read_loop, hc, hcap] using hrest
        · have hrest := ih (buf ++ [c]) (pos + 1) cap (by omega) (by omega)
          simpa [shell_read_loop, hc, hcap] using hrest

/-- Claim C7: when the first line of the stream is shorter than the initial
buffer capacity, `shell_read_input` returns exactly the characters before the
first newline (or end-of-stream), the line delimiter excluded and the
terminator implicit; an immediately-empty line yields the string that holds
only the terminator (the empty list). -/
theorem claim_C7 (stdin : List Char)
    (h : (firstLine stdin).length < SHELL_INPUT_BUFFER_SIZE) :
    (shell_read_input stdin).1 = firstLine stdin ∧
    (stdin.head? = some '\n' → (shell_read_input stdin).1 = []) := by
  constructor
  · simpa [shell_read_input]
      using shell_read_loop_line stdin [] 0 SHELL_INPUT_BUFFER_SIZE
  · intro hh
    cases stdin with
    | nil => simp at hh
    | cons c rest =>
        have hcn : c = '\n' := by simpa using hh
        subst hcn
        simp [shell_read_input, shell_read_loop]

theorem claim_C7_witness :
    (firstLine "hi\nmore".toList).length < SHELL_INPUT_BUFFER_SIZE ∧
    ((shell_read_input "hi\nmore".toList).1 = firstLine "hi\nmore".toList ∧
      (("hi\nmore".toList).head? = some '\n' →
        (shell_read_input "hi\nmore".toList).1 = [])) :=
  ⟨by decide, claim_C7 "hi\nmore".toList (by decide)⟩

/-- Claim C8: when the first line of the stream is longer than the initial
buffer capacity, at least one growth step occurs and every growth step
multiplies the capacity by the growth factor (the final capacity is the
initial capacity times a positive power of the factor — never an increment);
previously written bytes are preserved across every growth (from any buffer
prefix, the loop returns that prefix followed by the rest of the line); and
the returned string is still byte-exact: exactly the characters before the
first newline, correctly terminated, with no truncation or corruption. -/
theorem claim_C8 (stdin : List Char)
    (h : SHELL_INPUT_BUFFER_SIZE < (firstLine stdin).length) :
    (shell_read_input stdin).1 = firstLine stdin ∧
    (∀ buf pos cap, (shell_read_loop stdin buf pos cap).1 = buf ++ firstLine stdin) ∧
    (∃ k, 1 ≤ k ∧ (shell_read_input stdin).2
        = SHELL_INPUT_BUFFER_SIZE * SHELL_INPUT_BUFFER_GROWTH ^ k) := by
  refine ⟨by simpa [shell_read_input]
      using shell_read_loop_line stdin [] 0 SHELL_INPUT_BUFFER_SIZE,
    shell_read_loop_line stdin, ?_⟩
  obtain ⟨k, hk⟩ := shell_read_loop_cap stdin [] 0 SHELL_INPUT_BUFFER_SIZE
  have hgrow := shell_read_loop_growth stdin [] 0 SHELL_INPUT_BUFFER_SIZE
    (by decide) (by omega)
  refine ⟨k, ?_, hk⟩
  have hfin : (shell_read_input stdin).2
      = (shell_read_loop stdin [] 0 SHELL_INPUT_BUFFER_SIZE).2 := rfl
  by_contra hk0
  have hkz : k = 0 := by omega
  subst hkz
  rw [hk] at hgrow
  simp [SHELL_INPUT_BUFFER_SIZE, SHELL_INPUT_BUFFER_GROWTH] at hgrow

theorem firstLine_replicate (n : Nat) :
    firstLine (List.replicate n 'a') = List.replicate n 'a' := by
  induction n with
  | zero => rfl
  | succ n ih =>
      rw [List.replicate_succ, firstLine_cons_of_ne 'a' _ (by decide), ih]

theorem claim_C8_witness :
    SHELL_INPUT_BUFFER_SIZE < (firstLine (List.replicate 1025 'a')).length ∧
    ((shell_read_input (List.replicate 1025 'a')).1
        = firstLine (List.replicate 1025 'a') ∧
      (∀ buf pos cap, (shell_read_loop (List.replicate 1025 'a') buf pos cap).1
          = buf ++ firstLine (List.replicate 1025 'a')) ∧
      (∃ k, 1 ≤ k ∧ (shell_read_input (List.replicate 1025 'a')).2
          = SHELL_INPUT_BUFFER_SIZE * SHELL_INPUT_BUFFER_GROWTH ^ k)) := by
  have hlen : SHELL_INPUT_BUFFER_SIZE < (firstLine (List.replicate 1025 'a')).length := by
    rw [firstLine_replicate, List.length_replicate]
    decide
  exact ⟨hlen, claim_C8 (List.replicate 1025 'a') hlen⟩
